import Mathlib

/-!
Verification development for the NBVD co-clustering core (`src/nbvd.py`).

Modelling conventions.

* Dense float matrices become `Matrix (Fin a) (Fin b) ℚ`.  All arithmetic the
  claims exercise is exact in the rationals; floating point rounding is not
  modelled.
* `numpy.linalg.norm(M)` (the Frobenius norm) is represented by its square
  `sqnorm M = ∑ i j, (M i j)^2`.  The square root is irrational, but every use
  in the source is either an order comparison between two such norms or an
  equality between two such norms, and `x ↦ x^2` is a strictly monotone
  bijection on the non-negative reals, so the squared representation is
  faithful for all properties stated here.
* `np.inf` (the initial `previous_norm` / `current_norm` / `best_norm`) is the
  top element of `WithTop ℚ`; the mean of `MeanTuple(-np.inf)` is the bottom
  element of `WithBot ℚ`.
* `numpy.random.default_rng(seed)` is a deterministic stream of draws; the
  per-attempt draws `rng.random((n,k))` and `rng.random((l,m))` are abstracted
  as explicit function parameters `rngR, rngC : ℕ → Matrix _ _ ℚ` indexed by
  the attempt number.
* Division by zero yields 0 in `ℚ` whereas numpy produces `inf`/`nan`; every
  claim that touches a quotient therefore carries (or is conditioned on) the
  no-zero-denominator hypothesis that the spec itself states.
-/

namespace NBVD

open Matrix

/- The Batteries rational operations are marked irreducible, which blocks
`decide` on concrete rational computations; re-mark them semireducible so the
concrete witnesses below can be checked by evaluation. -/
set_option allowUnsafeReducibility true
attribute [semireducible] Rat.add Rat.mul Rat.sub Rat.inv

variable {n m k l : ℕ}

/-- Elementwise (Hadamard) product: numpy `A * B` on same-shaped arrays. -/
def emul (A B : Matrix (Fin n) (Fin m) ℚ) : Matrix (Fin n) (Fin m) ℚ :=
  fun i j => A i j * B i j

/-- Elementwise division: numpy `A / B` on same-shaped arrays.  The source
applies no epsilon guard, so a zero denominator entry is possible; in `ℚ` such
an entry becomes `0` (numpy would produce `inf`/`nan`), which is why the
non-negativity claim carries an explicit no-zero-denominator hypothesis. -/
def ediv (A B : Matrix (Fin n) (Fin m) ℚ) : Matrix (Fin n) (Fin m) ℚ :=
  fun i j => A i j / B i j

/-- `np.ones(shape)`. -/
def npOnes (a b : ℕ) : Matrix (Fin a) (Fin b) ℚ := fun _ _ => 1

/-- Squared Frobenius norm, representing `numpy.linalg.norm` (see the header
comment: only order comparisons and same-kind equalities of norms occur in the
source, so the square is a faithful representative). -/
def sqnorm (M : Matrix (Fin n) (Fin m) ℚ) : ℚ := ∑ i, ∑ j, (M i j) ^ 2

/-- The factor triple `(R, B, C)` of the asymmetric decomposition:
`R : n×k`, `B : k×l`, `C : l×m` (src/nbvd.py data model). -/
@[ext]
structure Factors (n k l m : ℕ) where
  R : Matrix (Fin n) (Fin k) ℚ
  B : Matrix (Fin k) (Fin l) ℚ
  C : Matrix (Fin l) (Fin m) ℚ
deriving DecidableEq

/-- The reconstruction `R @ B @ C`. -/
def recon (F : Factors n k l m) : Matrix (Fin n) (Fin m) ℚ := F.R * F.B * F.C

/-- One iteration of the asymmetric multiplicative update
(`attempt_coclustering_aux`, `symmetric=False` branch, src/nbvd.py lines
142-145).  Each numpy full-slice assignment `X[:,:] = ...` evaluates its whole
right-hand side before writing, so the three assignments are sequential: `R`
is rewritten first from the previous `B` and `C`; the `B` assignment then
reads the new `R`; the `C` assignment reads the new `R` and the new `B`. -/
def attempt_coclustering_aux (Z : Matrix (Fin n) (Fin m) ℚ) (F : Factors n k l m) :
    Factors n k l m :=
  let R := F.R
  let B := F.B
  let C := F.C
  let Rnew := ediv (emul R (Z * Cᵀ * Bᵀ)) (R * B * C * Cᵀ * Bᵀ)
  let Bnew := ediv (emul B (Rnewᵀ * Z * Cᵀ)) (Rnewᵀ * Rnew * B * C * Cᵀ)
  let Cnew := ediv (emul C (Bnewᵀ * Rnewᵀ * Z)) (Bnewᵀ * Rnewᵀ * Rnew * Bnew * C)
  ⟨Rnew, Bnew, Cnew⟩

/-- One iteration of the symmetric multiplicative update
(`attempt_coclustering_aux`, `symmetric=True` branch, src/nbvd.py lines
146-149).  `S` aliases `R`; `C` is the transposed view of `R` and is not read
by this branch. -/
def attempt_coclustering_aux_sym (Z : Matrix (Fin n) (Fin n) ℚ)
    (S : Matrix (Fin n) (Fin k) ℚ) (B : Matrix (Fin k) (Fin k) ℚ) :
    Matrix (Fin n) (Fin k) ℚ × Matrix (Fin k) (Fin k) ℚ :=
  let Snew := ediv (emul S (Z * S * B)) (S * B * Sᵀ * S * B)
  let Bnew := ediv (emul B (Snewᵀ * Z * Snew)) (Snewᵀ * Snew * B * Snewᵀ * Snew)
  (Snew, Bnew)

/-- The asymmetric update rule exactly as §4.2 of the spec words it:
elementwise formulas, `R` replaced first using the previous `B` and `C`, then
`B` using the new `R` and previous `C`, then `C` using the new `R` and new
`B`. -/
def updateEngineSpec (Z : Matrix (Fin n) (Fin m) ℚ) (F : Factors n k l m) :
    Factors n k l m :=
  let Rnew : Matrix (Fin n) (Fin k) ℚ :=
    fun i j => F.R i j * (Z * F.Cᵀ * F.Bᵀ) i j / (F.R * F.B * F.C * F.Cᵀ * F.Bᵀ) i j
  let Bnew : Matrix (Fin k) (Fin l) ℚ :=
    fun i j => F.B i j * (Rnewᵀ * Z * F.Cᵀ) i j / (Rnewᵀ * Rnew * F.B * F.C * F.Cᵀ) i j
  let Cnew : Matrix (Fin l) (Fin m) ℚ :=
    fun i j => F.C i j * (Bnewᵀ * Rnewᵀ * Z) i j / (Bnewᵀ * Rnewᵀ * Rnew * Bnew * F.C) i j
  ⟨Rnew, Bnew, Cnew⟩

/-- C1: one iteration of the asymmetric Update Engine computes, elementwise
and in this order: `R` is replaced by `R ⊙ (Z·Cᵀ·Bᵀ) / (R·B·C·Cᵀ·Bᵀ)` using
the previous `B` and `C`; then `B` by `B ⊙ (Rᵀ·Z·Cᵀ) / (Rᵀ·R·B·C·Cᵀ)` using
the new `R` and previous `C`; then `C` by `C ⊙ (Bᵀ·Rᵀ·Z) / (Bᵀ·Rᵀ·R·B·C)`
using the new `R` and new `B`. -/
theorem update_engine_matches_spec (Z : Matrix (Fin n) (Fin m) ℚ)
    (F : Factors n k l m) :
    attempt_coclustering_aux Z F = updateEngineSpec Z F :=
  rfl

/-!
## Convergence loop

`attempt_coclustering` (src/nbvd.py lines 151-171):

    i, previous_norm, current_norm = 0, np.inf, np.inf
    while i == 0 or (i < self.iter_max and current_norm <= previous_norm):
        NBVD_coclustering.attempt_coclustering_aux(Z,R,B,C, symmetric=symmetric)
        previous_norm = current_norm
        current_norm = norm(R@B@C - Z)
        i += 1
    return ((R, B, C), current_norm, i)

The while loop is embedded with explicit fuel.  Fuel `iter_max + 1` always
suffices: the guard forces `i = 0` or `i < iter_max`, so the loop body runs at
most `max 1 iter_max` times; moreover the soundness lemmas below never rely on
fuel sufficiency.  The loop is stated generically in the state type, the update
and the norm; `attempt_coclustering` instantiates it with the asymmetric update
and the squared Frobenius reconstruction error exactly as the source does.
-/

/-- The `while` loop of `attempt_coclustering`, fuel-indexed.  `i` is the
iteration counter, `prev`/`cur` the previous/current reconstruction norms
(`⊤` models the initial `np.inf`).  Returns the final state, the final current
norm and the iteration count, as the source returns `((R,B,C), current_norm, i)`. -/
def coclusterLoop {α : Type} (iterMax : ℕ) (upd : α → α) (nrm : α → ℚ) :
    ℕ → ℕ → WithTop ℚ → WithTop ℚ → α → α × WithTop ℚ × ℕ
  | 0, i, _prev, cur, s => (s, cur, i)
  | fuel + 1, i, prev, cur, s =>
    if i = 0 ∨ (i < iterMax ∧ cur ≤ prev) then
      let s2 := upd s
      coclusterLoop iterMax upd nrm fuel (i + 1) cur ((nrm s2 : ℚ)) s2
    else (s, cur, i)

/-- One attempt of the optimizer: the convergence loop started at
`i = 0, previous_norm = current_norm = np.inf`, driven by the asymmetric
update and the reconstruction error `norm(R@B@C - Z)` (squared representative). -/
def attempt_coclustering (iterMax : ℕ) (Z : Matrix (Fin n) (Fin m) ℚ)
    (F0 : Factors n k l m) : Factors n k l m × WithTop ℚ × ℕ :=
  coclusterLoop iterMax (attempt_coclustering_aux Z) (fun F => sqnorm (recon F - Z))
    (iterMax + 1) 0 ⊤ ⊤ F0

/-- The value of `previous_norm` observed by the guard when the counter is `t`:
`np.inf` up to the first check after one update, thereafter the norm recorded
after update `t - 1`. -/
def loopPrev {α : Type} (upd : α → α) (nrm : α → ℚ) (s0 : α) (t : ℕ) : WithTop ℚ :=
  if t ≤ 1 then ⊤ else ((nrm (upd^[t - 1] s0) : ℚ) : WithTop ℚ)

theorem coclusterLoop_go {α : Type} (iterMax : ℕ) (upd : α → α) (nrm : α → ℚ)
    (s0 : α) :
    ∀ (fuel i : ℕ), 1 ≤ i →
      ∃ N, i ≤ N ∧
        coclusterLoop iterMax upd nrm fuel i (loopPrev upd nrm s0 i)
            ((nrm (upd^[i] s0) : ℚ)) (upd^[i] s0)
          = (upd^[N] s0, ((nrm (upd^[N] s0) : ℚ) : WithTop ℚ), N) ∧
        ∀ t, i ≤ t → t < N →
          t < iterMax ∧
            ((nrm (upd^[t] s0) : ℚ) : WithTop ℚ) ≤ loopPrev upd nrm s0 t := by
  intro fuel
  induction fuel with
  | zero =>
    intro i hi
    exact ⟨i, le_refl i, rfl, fun t ht1 ht2 => absurd (lt_of_le_of_lt ht1 ht2) (lt_irrefl i)⟩
  | succ fuel ih =>
    intro i hi
    by_cases hg : i = 0 ∨ (i < iterMax ∧
        ((nrm (upd^[i] s0) : ℚ) : WithTop ℚ) ≤ loopPrev upd nrm s0 i)
    · have hg2 : i < iterMax ∧
          ((nrm (upd^[i] s0) : ℚ) : WithTop ℚ) ≤ loopPrev upd nrm s0 i :=
        hg.resolve_left (by omega)
      have hstep : upd (upd^[i] s0) = upd^[i + 1] s0 :=
        (Function.iterate_succ_apply' upd i s0).symm
      have hprev : loopPrev upd nrm s0 (i + 1) = ((nrm (upd^[i] s0) : ℚ) : WithTop ℚ) := by
        unfold loopPrev
        rw [if_neg (by omega)]
        simp
      obtain ⟨N, hN, heq, hjust⟩ := ih (i + 1) (by omega)
      refine ⟨N, by omega, ?_, ?_⟩
      · show coclusterLoop iterMax upd nrm (fuel + 1) i (loopPrev upd nrm s0 i)
            ((nrm (upd^[i] s0) : ℚ)) (upd^[i] s0) = _
        rw [coclusterLoop, if_pos hg]
        show coclusterLoop iterMax upd nrm fuel (i + 1)
            ((nrm (upd^[i] s0) : ℚ)) ((nrm (upd (upd^[i] s0)) : ℚ)) (upd (upd^[i] s0)) = _
        rw [hstep, ← hprev]
        exact heq
      · intro t ht1 ht2
        rcases eq_or_lt_of_le ht1 with h | h
        · exact h ▸ hg2
        · exact hjust t h ht2
    · refine ⟨i, le_refl i, ?_, fun t ht1 ht2 => absurd (lt_of_le_of_lt ht1 ht2) (lt_irrefl i)⟩
      rw [coclusterLoop, if_neg hg]

theorem coclusterLoop_run {α : Type} (iterMax : ℕ) (upd : α → α) (nrm : α → ℚ)
    (s0 : α) :
    ∃ N, 1 ≤ N ∧
      coclusterLoop iterMax upd nrm (iterMax + 1) 0 ⊤ ⊤ s0
        = (upd^[N] s0, ((nrm (upd^[N] s0) : ℚ) : WithTop ℚ), N) ∧
      ∀ t, 1 ≤ t → t < N →
        t < iterMax ∧
          ((nrm (upd^[t] s0) : ℚ) : WithTop ℚ) ≤ loopPrev upd nrm s0 t := by
  have h0 : coclusterLoop iterMax upd nrm (iterMax + 1) 0 ⊤ ⊤ s0
      = coclusterLoop iterMax upd nrm iterMax 1 ⊤ ((nrm (upd s0) : ℚ)) (upd s0) := by
    rw [coclusterLoop, if_pos (Or.inl rfl)]
  have h1 : loopPrev upd nrm s0 1 = (⊤ : WithTop ℚ) := by
    unfold loopPrev
    rw [if_pos (le_refl 1)]
  obtain ⟨N, hN, heq, hjust⟩ := coclusterLoop_go iterMax upd nrm s0 iterMax 1 (le_refl 1)
  refine ⟨N, hN, ?_, hjust⟩
  rw [h0]
  rw [h1, Function.iterate_one] at heq
  exact heq

/-- Specification of one attempt: the returned iteration count `N` is at least
1, the returned factors are the `N`-fold update of the initial factors, the
returned norm is the reconstruction error of the returned factors, and every
continuation past update `t` (for `1 ≤ t < N`) was licensed by the guard. -/
theorem attempt_coclustering_spec (iterMax : ℕ) (Z : Matrix (Fin n) (Fin m) ℚ)
    (F0 : Factors n k l m) :
    ∃ N, 1 ≤ N ∧
      attempt_coclustering iterMax Z F0
        = ((attempt_coclustering_aux Z)^[N] F0,
           ((sqnorm (recon ((attempt_coclustering_aux Z)^[N] F0) - Z) : ℚ) : WithTop ℚ), N) ∧
      ∀ t, 1 ≤ t → t < N →
        t < iterMax ∧
          ((sqnorm (recon ((attempt_coclustering_aux Z)^[t] F0) - Z) : ℚ) : WithTop ℚ)
            ≤ loopPrev (attempt_coclustering_aux Z) (fun F => sqnorm (recon F - Z)) F0 t :=
  coclusterLoop_run iterMax (attempt_coclustering_aux Z) (fun F => sqnorm (recon F - Z)) F0

/-- The norm returned by an attempt is the reconstruction error of the factors
it returns (used for C10). -/
theorem attempt_coclustering_norm_eq (iterMax : ℕ) (Z : Matrix (Fin n) (Fin m) ℚ)
    (F0 : Factors n k l m) :
    (attempt_coclustering iterMax Z F0).2.1
      = ((sqnorm (recon (attempt_coclustering iterMax Z F0).1 - Z) : ℚ) : WithTop ℚ) := by
  obtain ⟨N, _, heq, _⟩ := attempt_coclustering_spec iterMax Z F0
  rw [heq]

/-- C2: for every attempt, the convergence loop executes at least one update
(iteration 0 runs unconditionally), and after any update it never performs
another update once the iteration count has reached `iter_max` or once the
current reconstruction norm strictly exceeds the previous one: whenever update
`t + 1` was performed after update `t` (i.e. `1 ≤ t < N` for the returned count
`N`), at that moment `t < iter_max` held, and for `t ≥ 2` the norm after update
`t` was at most the norm after update `t - 1` (at `t = 1` the previous norm is
the initial `np.inf`, so that comparison is vacuous). -/
theorem convergence_loop_guard (iterMax : ℕ) (Z : Matrix (Fin n) (Fin m) ℚ)
    (F0 : Factors n k l m) :
    1 ≤ (attempt_coclustering iterMax Z F0).2.2 ∧
    ∀ t, 1 ≤ t → t < (attempt_coclustering iterMax Z F0).2.2 →
      t < iterMax ∧
      (2 ≤ t →
        sqnorm (recon ((attempt_coclustering_aux Z)^[t] F0) - Z)
          ≤ sqnorm (recon ((attempt_coclustering_aux Z)^[t - 1] F0) - Z)) := by
  obtain ⟨N, hN, heq, hjust⟩ := attempt_coclustering_spec iterMax Z F0
  rw [heq]
  refine ⟨hN, fun t ht1 ht2 => ?_⟩
  obtain ⟨hlt, hle⟩ := hjust t ht1 ht2
  refine ⟨hlt, fun ht3 => ?_⟩
  rw [loopPrev, if_neg (by omega)] at hle
  exact_mod_cast hle

/-- Concrete 1×1 input for the loop witnesses (a fixpoint of the update, so
the loop runs until `iter_max`). -/
def Zone1 : Matrix (Fin 1) (Fin 1) ℚ := fun _ _ => 1

/-- Concrete 1×1 factor triple for the loop witnesses. -/
def Fone1 : Factors 1 1 1 1 := ⟨fun _ _ => 1, fun _ _ => 1, fun _ _ => 1⟩

theorem convergence_loop_guard_witness :
    1 ≤ (attempt_coclustering 2 Zone1 Fone1).2.2 ∧
    (1 ≤ 1 ∧ 1 < (attempt_coclustering 2 Zone1 Fone1).2.2) ∧ 1 < 2 :=
  ⟨(convergence_loop_guard 2 Zone1 Fone1).1,
   ⟨le_refl 1, by decide⟩,
   ((convergence_loop_guard 2 Zone1 Fone1).2 1 (le_refl 1) (by decide)).1⟩

/-!
## Non-negativity (C3)
-/

/-- Entrywise non-negativity of a matrix. -/
def entrywiseNonneg (M : Matrix (Fin n) (Fin m) ℚ) : Prop := ∀ i j, 0 ≤ M i j

instance (M : Matrix (Fin n) (Fin m) ℚ) : Decidable (entrywiseNonneg M) :=
  inferInstanceAs (Decidable (∀ i j, 0 ≤ M i j))

/-- No entry of the matrix is exactly zero. -/
def noZeroEntry (M : Matrix (Fin n) (Fin m) ℚ) : Prop := ∀ i j, M i j ≠ 0

instance (M : Matrix (Fin n) (Fin m) ℚ) : Decidable (noZeroEntry M) :=
  inferInstanceAs (Decidable (∀ i j, M i j ≠ 0))

/-- All three factors are entrywise non-negative. -/
def Factors.Nonneg (F : Factors n k l m) : Prop :=
  entrywiseNonneg F.R ∧ entrywiseNonneg F.B ∧ entrywiseNonneg F.C

instance (F : Factors n k l m) : Decidable F.Nonneg :=
  inferInstanceAs (Decidable (entrywiseNonneg F.R ∧ entrywiseNonneg F.B ∧ entrywiseNonneg F.C))

/-- No denominator entry of one asymmetric update starting from `F` is exactly
zero.  The second and third denominators read the in-place-updated `R` and `B`
(the `R` and `B` components of `attempt_coclustering_aux Z F`), exactly as the
source's sequential slice assignments do. -/
def denomsNonzero (Z : Matrix (Fin n) (Fin m) ℚ) (F : Factors n k l m) : Prop :=
  noZeroEntry (F.R * F.B * F.C * F.Cᵀ * F.Bᵀ) ∧
  noZeroEntry ((attempt_coclustering_aux Z F).Rᵀ * (attempt_coclustering_aux Z F).R
      * F.B * F.C * F.Cᵀ) ∧
  noZeroEntry ((attempt_coclustering_aux Z F).Bᵀ * (attempt_coclustering_aux Z F).Rᵀ
      * (attempt_coclustering_aux Z F).R * (attempt_coclustering_aux Z F).B * F.C)

instance (Z : Matrix (Fin n) (Fin m) ℚ) (F : Factors n k l m) :
    Decidable (denomsNonzero Z F) :=
  inferInstanceAs (Decidable (_ ∧ _ ∧ _))

theorem entrywiseNonneg_mul {a b c : ℕ} {A : Matrix (Fin a) (Fin b) ℚ}
    {B : Matrix (Fin b) (Fin c) ℚ} (hA : entrywiseNonneg A) (hB : entrywiseNonneg B) :
    entrywiseNonneg (A * B) := by
  intro i j
  rw [Matrix.mul_apply]
  exact Finset.sum_nonneg fun t _ => mul_nonneg (hA i t) (hB t j)

theorem entrywiseNonneg_transpose {a b : ℕ} {A : Matrix (Fin a) (Fin b) ℚ}
    (hA : entrywiseNonneg A) : entrywiseNonneg Aᵀ :=
  fun i j => hA j i

/-- A multiplicative-update quotient of non-negative matrices is non-negative
(`ℚ` division by zero is zero, hence also non-negative; under the claim's
no-zero-denominator hypothesis the `ℚ` value agrees with the float value). -/
theorem entrywiseNonneg_update {a b : ℕ} {A N D : Matrix (Fin a) (Fin b) ℚ}
    (hA : entrywiseNonneg A) (hN : entrywiseNonneg N) (hD : entrywiseNonneg D) :
    entrywiseNonneg (ediv (emul A N) D) :=
  fun i j => div_nonneg (mul_nonneg (hA i j) (hN i j)) (hD i j)

/-- One asymmetric update preserves entrywise non-negativity of the factor
triple when `Z` is non-negative. -/
theorem step_nonneg (Z : Matrix (Fin n) (Fin m) ℚ) (F : Factors n k l m)
    (hZ : entrywiseNonneg Z) (hF : F.Nonneg) :
    (attempt_coclustering_aux Z F).Nonneg := by
  obtain ⟨hR, hB, hC⟩ := hF
  have hRn : entrywiseNonneg (attempt_coclustering_aux Z F).R :=
    entrywiseNonneg_update hR
      (entrywiseNonneg_mul (entrywiseNonneg_mul hZ (entrywiseNonneg_transpose hC))
        (entrywiseNonneg_transpose hB))
      (entrywiseNonneg_mul
        (entrywiseNonneg_mul
          (entrywiseNonneg_mul (entrywiseNonneg_mul hR hB) hC)
          (entrywiseNonneg_transpose hC))
        (entrywiseNonneg_transpose hB))
  have hBn : entrywiseNonneg (attempt_coclustering_aux Z F).B :=
    entrywiseNonneg_update hB
      (entrywiseNonneg_mul
        (entrywiseNonneg_mul (entrywiseNonneg_transpose hRn) hZ)
        (entrywiseNonneg_transpose hC))
      (entrywiseNonneg_mul
        (entrywiseNonneg_mul
          (entrywiseNonneg_mul (entrywiseNonneg_mul (entrywiseNonneg_transpose hRn) hRn) hB)
          hC)
        (entrywiseNonneg_transpose hC))
  have hCn : entrywiseNonneg (attempt_coclustering_aux Z F).C :=
    entrywiseNonneg_update hC
      (entrywiseNonneg_mul
        (entrywiseNonneg_mul (entrywiseNonneg_transpose hBn) (entrywiseNonneg_transpose hRn))
        hZ)
      (entrywiseNonneg_mul
        (entrywiseNonneg_mul
          (entrywiseNonneg_mul
            (entrywiseNonneg_mul (entrywiseNonneg_transpose hBn) (entrywiseNonneg_transpose hRn))
            hRn)
          hBn)
        hC)
  exact ⟨hRn, hBn, hCn⟩

/-- One symmetric update preserves entrywise non-negativity when `Z` is
non-negative. -/
theorem step_nonneg_sym (Z : Matrix (Fin n) (Fin n) ℚ)
    (S : Matrix (Fin n) (Fin k) ℚ) (B : Matrix (Fin k) (Fin k) ℚ)
    (hZ : entrywiseNonneg Z) (hS : entrywiseNonneg S) (hB : entrywiseNonneg B) :
    entrywiseNonneg (attempt_coclustering_aux_sym Z S B).1 ∧
    entrywiseNonneg (attempt_coclustering_aux_sym Z S B).2 := by
  have hS1 : entrywiseNonneg (attempt_coclustering_aux_sym Z S B).1 :=
    entrywiseNonneg_update hS
      (entrywiseNonneg_mul (entrywiseNonneg_mul hZ hS) hB)
      (entrywiseNonneg_mul
        (entrywiseNonneg_mul
          (entrywiseNonneg_mul (entrywiseNonneg_mul hS hB) (entrywiseNonneg_transpose hS))
          hS)
        hB)
  refine ⟨hS1, ?_⟩
  exact
    entrywiseNonneg_update hB
      (entrywiseNonneg_mul
        (entrywiseNonneg_mul (entrywiseNonneg_transpose hS1) hZ) hS1)
      (entrywiseNonneg_mul
        (entrywiseNonneg_mul
          (entrywiseNonneg_mul
            (entrywiseNonneg_mul (entrywiseNonneg_transpose hS1) hS1) hB)
          (entrywiseNonneg_transpose hS1))
        hS1)

/-- No denominator entry of one symmetric update starting from `(S, B)` is
exactly zero (the `B` denominator reads the in-place-updated `S`). -/
def denomsNonzeroSym (Z : Matrix (Fin n) (Fin n) ℚ)
    (p : Matrix (Fin n) (Fin k) ℚ × Matrix (Fin k) (Fin k) ℚ) : Prop :=
  noZeroEntry (p.1 * p.2 * p.1ᵀ * p.1 * p.2) ∧
  noZeroEntry ((attempt_coclustering_aux_sym Z p.1 p.2).1ᵀ
      * (attempt_coclustering_aux_sym Z p.1 p.2).1 * p.2
      * (attempt_coclustering_aux_sym Z p.1 p.2).1ᵀ
      * (attempt_coclustering_aux_sym Z p.1 p.2).1)

instance (Z : Matrix (Fin n) (Fin n) ℚ)
    (p : Matrix (Fin n) (Fin k) ℚ × Matrix (Fin k) (Fin k) ℚ) :
    Decidable (denomsNonzeroSym Z p) :=
  inferInstanceAs (Decidable (_ ∧ _))

/-- C3: for every non-negative input matrix `Z` and non-negative initial
factors, if no denominator entry of the multiplicative update is exactly zero
along the run, then every entry of `R`, `B` and `C` is `≥ 0` after every
iteration of the update engine — asymmetric variant (first conjunct) and
symmetric variant (second conjunct; there `S` aliases `R` and `C` is the
transposed view of `S`, whose non-negativity is the last clause).  In the `ℚ`
model the no-zero-denominator hypothesis is exactly what makes rational
division agree with the unguarded floating-point division of the source. -/
theorem factors_nonneg_preserved :
    (∀ (Z : Matrix (Fin n) (Fin m) ℚ) (F0 : Factors n k l m) (T : ℕ),
      entrywiseNonneg Z → F0.Nonneg →
      (∀ t, t < T → denomsNonzero Z ((attempt_coclustering_aux Z)^[t] F0)) →
      ((attempt_coclustering_aux Z)^[T] F0).Nonneg) ∧
    (∀ (Z : Matrix (Fin n) (Fin n) ℚ)
      (p0 : Matrix (Fin n) (Fin k) ℚ × Matrix (Fin k) (Fin k) ℚ) (T : ℕ),
      entrywiseNonneg Z → entrywiseNonneg p0.1 → entrywiseNonneg p0.2 →
      (∀ t, t < T →
        denomsNonzeroSym Z ((fun p => attempt_coclustering_aux_sym Z p.1 p.2)^[t] p0)) →
      entrywiseNonneg ((fun p => attempt_coclustering_aux_sym Z p.1 p.2)^[T] p0).1 ∧
      entrywiseNonneg ((fun p => attempt_coclustering_aux_sym Z p.1 p.2)^[T] p0).2 ∧
      entrywiseNonneg (((fun p => attempt_coclustering_aux_sym Z p.1 p.2)^[T] p0).1ᵀ)) := by
  constructor
  · intro Z F0 T hZ hF hden
    induction T with
    | zero => simpa using hF
    | succ T ih =>
      rw [Function.iterate_succ_apply']
      exact step_nonneg Z _ hZ (ih fun t ht => hden t (by omega))
  · intro Z p0 T hZ hS hB hden
    have main :
        entrywiseNonneg ((fun p => attempt_coclustering_aux_sym Z p.1 p.2)^[T] p0).1 ∧
        entrywiseNonneg ((fun p => attempt_coclustering_aux_sym Z p.1 p.2)^[T] p0).2 := by
      induction T with
      | zero => exact ⟨by simpa using hS, by simpa using hB⟩
      | succ T ih =>
        rw [Function.iterate_succ_apply']
        have h2 := ih fun t ht => hden t (by omega)
        exact step_nonneg_sym Z _ _ hZ h2.1 h2.2
    exact ⟨main.1, main.2, entrywiseNonneg_transpose main.1⟩

/-!
## Label extraction (`get_adherence`, `get_labels_bicluster`)
-/

/-- `diag = lambda M : np.diag(np.diag(M))` from `get_adherence`: the diagonal
matrix holding the main diagonal of `M`. -/
def npDiag (M : Matrix (Fin k) (Fin k) ℚ) : Matrix (Fin k) (Fin k) ℚ :=
  Matrix.diagonal (fun i => M i i)

/-- `np.argmax` over one axis: the first index attaining the maximum, embedded
as the left fold that replaces the current best index only on a strictly
larger value. -/
def npArgmax {a : ℕ} [NeZero a] (v : Fin a → ℚ) : Fin a :=
  (List.finRange a).foldl (fun best j => if v best < v j then j else best)
    ⟨0, Nat.pos_of_ne_zero (NeZero.ne a)⟩

/-- The "fancy" adherence computation (`get_adherence`, src/nbvd.py lines
80-102), which the source documents as only working when the row and column
cluster counts agree (square `B`).  Line by line: `xsum = np.sum(R@B@C)`;
`U = R`; `S = B / xsum`; `V = C.T`; `Du`/`Dv` the diagonal matrices of the
column sums of `U`/`V` (`diag(np.ones(U.shape).T @ U)` etc.); then
`U = U @ diag(S @ Dv @ np.ones(Dv.shape))` and
`V = V @ diag(np.ones(Du.shape).T @ Du @ S)`; returns `(row_adh, col_adh) =
(U, V)`. -/
def get_adherence_fancy (R : Matrix (Fin n) (Fin k) ℚ)
    (C : Matrix (Fin k) (Fin m) ℚ) (B : Matrix (Fin k) (Fin k) ℚ) :
    Matrix (Fin n) (Fin k) ℚ × Matrix (Fin m) (Fin k) ℚ :=
  let xsum : ℚ := ∑ i, ∑ j, (R * B * C) i j
  let U := R
  let S : Matrix (Fin k) (Fin k) ℚ := fun i j => B i j / xsum
  let V := Cᵀ
  let Du := npDiag ((npOnes n k)ᵀ * U)
  let Dv := npDiag ((npOnes m k)ᵀ * V)
  let U1 := U * npDiag (S * Dv * npOnes k k)
  let V1 := V * npDiag ((npOnes k k)ᵀ * Du * S)
  (U1, V1)

/-- `get_adherence` (src/nbvd.py lines 75-102): dispatch on the labeling
method string.  With `method="fancy"` and `B is None` the source raises; any
method other than `"rbc"`/`"fancy"` leaves the result variables unbound and
the return statement raises `UnboundLocalError`. -/
def get_adherence (R : Matrix (Fin n) (Fin k) ℚ) (C : Matrix (Fin k) (Fin m) ℚ)
    (B? : Option (Matrix (Fin k) (Fin k) ℚ)) (method : String) :
    Except String (Matrix (Fin n) (Fin k) ℚ × Matrix (Fin m) (Fin k) ℚ) :=
  if method = "rbc" then .ok (R, Cᵀ)
  else if method = "fancy" then
    match B? with
    | none => .error "[NBVD.get_adherence] ERROR: B is None"
    | some B => .ok (get_adherence_fancy R C B)
  else .error "UnboundLocalError"

/-- `get_labels_bicluster` (src/nbvd.py lines 104-133) with the default
`"fancy"` method, at equal cluster counts (`l = k`, the only case the fancy
adherence supports).  Returns `((bic_rows.T, bic_cols.T), row, col)`:
`row[i] = argmax_j row_adh[i, j]`, `col[j] = argmax_c col_adh[j, c]`, and the
masks `bic_rows[i, j] = (j_idx == row_mod)[i, j] = (j == row[i])`,
`bic_cols[j, c] = (c == col[j])` — the latter is the typed `l = k` instance of
the mask construction; `bicColsRaw` below keeps the raw numpy broadcast
semantics, which differ when `l ≠ k`. -/
def get_labels_bicluster [NeZero k] (R : Matrix (Fin n) (Fin k) ℚ)
    (C : Matrix (Fin k) (Fin m) ℚ) (B : Matrix (Fin k) (Fin k) ℚ) :
    (Matrix (Fin k) (Fin n) Bool × Matrix (Fin k) (Fin m) Bool)
      × (Fin n → Fin k) × (Fin m → Fin k) :=
  let adh := get_adherence_fancy R C B
  let row : Fin n → Fin k := fun i => npArgmax (fun j => adh.1 i j)
  let col : Fin m → Fin k := fun j => npArgmax (fun c => adh.2 j c)
  let bic_rows : Matrix (Fin n) (Fin k) Bool := fun i j => decide (j = row i)
  let bic_cols : Matrix (Fin m) (Fin k) Bool := fun j c => decide (c = col j)
  ((bic_rowsᵀ, bic_colsᵀ), row, col)

/-- Numpy equality comparison with broadcasting over the trailing axis:
shapes `(rows, a)` and `(rows, b)` broadcast when `a = b`, `a = 1` or `b = 1`
(otherwise numpy raises, modelled as `none`), producing width `max a b`; a
size-1 axis is repeated.  Matrices are untyped (index functions plus explicit
widths) precisely so that mismatched shapes can be expressed. -/
def npBroadcastEq (a b : ℕ) (A : ℕ → ℕ → ℤ) (B2 : ℕ → ℕ → ℤ) :
    Option (ℕ × (ℕ → ℕ → Bool)) :=
  if a = b ∨ a = 1 ∨ b = 1 then
    some (max a b, fun i j =>
      decide (A i (if a = 1 then 0 else j) = B2 i (if b = 1 then 0 else j)))
  else none

/-- The column-mask computation of `get_labels_bicluster` (src/nbvd.py lines
128-131) with raw numpy semantics, parametric in the cluster counts:
`i_idx, _ = np.mgrid[slice(l), slice(m)]`, so `i_idx.T` has shape `(m, l)`
with entry `(j, c) = c`; `col_mod = col.reshape((m,1)).repeat(k, axis=1)` has
shape `(m, k)` — note `k`, not `l` — with entry `(j, c) = col[j]`; the mask is
`np.where((i_idx.T == col_mod), True, False)`.  Returns the width of the
comparison result together with its entries (the source then transposes). -/
def bicColsRaw (l2 k2 m2 : ℕ) (col : ℕ → ℕ) : Option (ℕ × (ℕ → ℕ → Bool)) :=
  let _ := m2
  npBroadcastEq l2 k2 (fun _ c => (c : ℤ)) (fun j _ => (col j : ℤ))

/-- For equal cluster counts the typed mask agrees with the claim: membership
is exactly label equality (supports reading the `repeat(k)` in the column
branch as a slip for `repeat(l)`). -/
theorem bicluster_mask_of_labels [NeZero k] (R : Matrix (Fin n) (Fin k) ℚ)
    (C : Matrix (Fin k) (Fin m) ℚ) (B : Matrix (Fin k) (Fin k) ℚ) :
    (∀ (i : Fin n) (c : Fin k),
        (get_labels_bicluster R C B).1.1ᵀ i c
          = decide ((get_labels_bicluster R C B).2.1 i = c)) ∧
    (∀ (j : Fin m) (c : Fin k),
        (get_labels_bicluster R C B).1.2ᵀ j c
          = decide ((get_labels_bicluster R C B).2.2 j = c)) := by
  constructor
  · intro i c
    show decide (c = (get_labels_bicluster R C B).2.1 i) = _
    simp [eq_comm]
  · intro j c
    show decide (c = (get_labels_bicluster R C B).2.2 j) = _
    simp [eq_comm]

/-- C6 (code bug): evaluated at `k = 3` row clusters, `l = 1` column
clusters, `m = 1` column with `ColumnLabels = [0]`, the raw column-mask
computation broadcasts `(m, 1) == (m, 3)` to width `max l k = 3` and its
entry at column-cluster index `2` is `True`; after the source's transposition
the column mask therefore has `3` rows instead of `l = 1` and marks
membership in clusters that do not exist, while the claim (matching the
`l = k` behaviour, where the mask is exactly label equality) prescribes the
`1×1` mask `[[True]]`.  With `l = 2, k = 3` the shapes `(m,2)` and `(m,3)`
do not broadcast at all and numpy raises. -/
theorem column_mask_broadcast_bug :
    (∃ p, bicColsRaw 1 3 1 (fun _ => 0) = some p ∧ p.1 = 3 ∧ p.2 0 2 = true) ∧
    bicColsRaw 2 3 1 (fun _ => 0) = none := by
  exact ⟨⟨_, rfl, rfl, rfl⟩, rfl⟩

/-!
## Basis vectors (C7)
-/

/-- `get_basis_vectors` (src/nbvd.py lines 50-61): `col_basis = R @ B`
(shape `(n, l)`), `row_basis = (B @ C).T` (shape `(m, k)`), returned as the
pair `(row_basis, col_basis)`. -/
def get_basis_vectors (R : Matrix (Fin n) (Fin k) ℚ) (B : Matrix (Fin k) (Fin l) ℚ)
    (C : Matrix (Fin l) (Fin m) ℚ) :
    Matrix (Fin m) (Fin k) ℚ × Matrix (Fin n) (Fin l) ℚ :=
  let col_basis := R * B
  let row_basis := (B * C)ᵀ
  (row_basis, col_basis)

/-- Concrete 1×1 matrices for the basis-vector counterexample. -/
def Rb1 : Matrix (Fin 1) (Fin 1) ℚ := fun _ _ => 2

/-- See `Rb1`. -/
def Bb1 : Matrix (Fin 1) (Fin 1) ℚ := fun _ _ => 3

/-- See `Rb1`. -/
def Cb1 : Matrix (Fin 1) (Fin 1) ℚ := fun _ _ => 5

/-- C7 counterexample: at `R = [[2]], B = [[3]], C = [[5]]` the first (row)
component of the exposed basis-vector pair is `(B·C)ᵀ = [[15]]`, not
`R·B = [[6]]` as the claim names it. -/
theorem basis_pair_not_spec_order :
    (get_basis_vectors Rb1 Bb1 Cb1).1 ≠ Rb1 * Bb1 := by
  decide

/-- C7 (amended): the exposed basis-vector pair is `(row_basis, col_basis)`
with `row_basis = (B·C)ᵀ` of shape `(m, k)` and `col_basis = R·B` of shape
`(n, l)`, computed from the winning factors — i.e. the claim attaches the two
formulas (and shapes) to the wrong names.  The shapes are enforced by the
return type. -/
theorem basis_vectors_swapped (R : Matrix (Fin n) (Fin k) ℚ)
    (B : Matrix (Fin k) (Fin l) ℚ) (C : Matrix (Fin l) (Fin m) ℚ) :
    get_basis_vectors R B C = ((B * C)ᵀ, R * B) :=
  rfl

/-!
## Pre-computation validation (C5)
-/

/-- The only validation `__post_init__` performs before any clustering
computation (src/nbvd.py lines 227-230): in symmetric mode, and only then,
the squareness of the data matrix is checked.  The cluster counts `kClusters`
and `lClusters` are accepted unexamined — no `≤ 0` validation exists anywhere
in the constructor — and are parameters here purely to record that fact. -/
def post_init_check (symmetric : Bool) (nDim mDim : ℕ) (kClusters lClusters : ℤ) :
    Except String Unit :=
  let _ := kClusters
  let _ := lClusters
  if symmetric = true ∧ nDim ≠ mDim then
    .error "Number of row clusters is different from number of column clusters."
  else .ok ()

/-- C5 counterexample: requesting `k = 0 ≤ 0` row clusters in a square
asymmetric configuration passes the pre-computation validation (no abort),
contradicting the claimed "aborts ... exactly when ... a cluster count
(k or l) is <= 0". -/
theorem config_check_misses_cluster_counts :
    post_init_check false 2 2 0 2 = Except.ok () ∧ (0 : ℤ) ≤ 0 :=
  ⟨rfl, le_refl 0⟩

/-- C5 (amended): the configuration error reported before any clustering
computation is exactly symmetric mode with a non-square matrix; the adherence
("fancy") strategy raises only at its own call site when no block-value
matrix is supplied (which is during labeling, not before computation); and
cluster counts are never validated. -/
theorem config_error_exact (symmetric : Bool) (nDim mDim : ℕ) (kC lC : ℤ)
    (R : Matrix (Fin n) (Fin k) ℚ) (C : Matrix (Fin k) (Fin m) ℚ) :
    ((∃ e, post_init_check symmetric nDim mDim kC lC = Except.error e)
        ↔ (symmetric = true ∧ nDim ≠ mDim)) ∧
    (∃ e, get_adherence R C none "fancy" = Except.error e) := by
  constructor
  · constructor
    · rintro ⟨e, he⟩
      by_cases h : symmetric = true ∧ nDim ≠ mDim
      · exact h
      · rw [post_init_check, if_neg h] at he
        exact absurd he (by simp)
    · intro h
      exact ⟨_, by rw [post_init_check, if_pos h]⟩
  · exact ⟨_, rfl⟩

theorem config_error_exact_witness :
    (∃ e, post_init_check true 2 3 2 2 = Except.error e) ∧
    (∃ e, get_adherence Rb1 Cb1 none "fancy" = Except.error e) :=
  ⟨(config_error_exact true 2 3 2 2 Rb1 Cb1).1.mpr ⟨rfl, by decide⟩,
   (config_error_exact true 2 3 2 2 Rb1 Cb1).2⟩

theorem factors_nonneg_preserved_witness :
    (entrywiseNonneg Zone1 ∧ Fone1.Nonneg ∧ denomsNonzero Zone1 Fone1 ∧
      ((attempt_coclustering_aux Zone1)^[1] Fone1).Nonneg) ∧
    entrywiseNonneg ((fun p => attempt_coclustering_aux_sym Zone1 p.1 p.2)^[1]
        (Zone1, Zone1)).1 :=
  ⟨⟨by decide, by decide, by decide,
    (factors_nonneg_preserved (n := 1) (m := 1) (k := 1) (l := 1)).1 Zone1 Fone1 1
      (by decide) (by decide)
      (fun t ht => by
        have h0 : t = 0 := Nat.lt_one_iff.mp ht
        rw [h0]
        decide)⟩,
   ((factors_nonneg_preserved (n := 1) (m := 1) (k := 1) (l := 1)).2 Zone1 (Zone1, Zone1) 1
      (by decide) (by decide) (by decide)
      (fun t ht => by
        have h0 : t = 0 := Nat.lt_one_iff.mp ht
        rw [h0]
        decide)).1⟩

/-!
## Attempt Orchestrator (`do_things`, src/nbvd.py lines 173-216)

The orchestrator's external collaborators are abstracted as explicit inputs:

* the per-attempt draws `rng.random((n,k))` / `rng.random((l,m))` become
  streams `rngR`, `rngC` indexed by the attempt number (the seeded generator
  is a deterministic function of the seed);
* the numeric value of sklearn's cosine `silhouette_score` (an external
  library, and irrational in general) becomes the oracles `silRowVal`,
  `silColVal` of the label assignment; its definedness condition is modelled
  below from the spec.

Everything else — the `B` initialization from `Z.mean()`, the convergence
loop, the fancy label extraction, the two silhouette calls, the comparison
and retention of the best attempt, and the final unpacking — follows the
source.  The default labeling method is `"fancy"`, which requires equal
cluster counts, so the orchestrator is embedded at `l = k`.
-/

instance {e a : Type} [DecidableEq e] [DecidableEq a] : DecidableEq (Except e a) :=
  fun x y =>
    match x, y with
    | .error e1, .error e2 => decidable_of_iff (e1 = e2) (by simp)
    | .ok v1, .ok v2 => decidable_of_iff (v1 = v2) (by simp)
    | .error _, .ok _ => isFalse (fun h => Except.noConfusion h)
    | .ok _, .error _ => isFalse (fun h => Except.noConfusion h)

/-- `Z.mean()`. -/
def npMean (Z : Matrix (Fin n) (Fin m) ℚ) : ℚ := (∑ i, ∑ j, Z i j) / (n * m)

/-- Modelled from the spec: `sklearn.metrics.silhouette_score` is an external
collaborator (not part of this repository).  Per §7 of the spec, "the
clustering-quality metric is undefined if a produced label assignment has
fewer than 2 distinct clusters represented" — sklearn raises in that case;
the numeric value on defined inputs is abstracted as the oracle `val`. -/
def silhouette_score {a b : ℕ} (val : (Fin a → Fin b) → ℚ) (labels : Fin a → Fin b) :
    Except String ℚ :=
  if 2 ≤ (Finset.univ.image labels).card then .ok (val labels)
  else .error "ValueError: Number of labels is 1. Valid values are 2 to n_samples - 1 (inclusive)"

/-- Modelled from the spec: `MeanTuple` lives in the missing `my_utils`
module; per §4.4 of the spec, "comparison between attempts' quality pairs is
by the arithmetic mean of the pair's two components", with strict `>` for
replacement.  A `MeanTuple` is represented by its mean, in `WithBot ℚ` so
that the initial `MeanTuple(-np.inf)` is `⊥`. -/
def meanPair (a b : ℚ) : ℚ := (a + b) / 2

/-- The inputs of one orchestrator run, external collaborators abstracted
(see the section header). -/
structure OrchestratorInput (n m k : ℕ) where
  Z : Matrix (Fin n) (Fin m) ℚ
  iter_max : ℕ
  n_attempts : ℕ
  rngR : ℕ → Matrix (Fin n) (Fin k) ℚ
  rngC : ℕ → Matrix (Fin k) (Fin m) ℚ
  silRowVal : (Fin n → Fin k) → ℚ
  silColVal : (Fin m → Fin k) → ℚ

/-- Initial factors of attempt `idx` (src/nbvd.py line 181): `R` and `C` from
the rng stream, `B = Z.mean() * np.ones((k,l))`. -/
def attemptInit (I : OrchestratorInput n m k) (idx : ℕ) : Factors n k k m :=
  ⟨I.rngR idx, fun _ _ => npMean I.Z, I.rngC idx⟩

/-- The optimizer run of attempt `idx` (src/nbvd.py line 189). -/
def attemptRun (I : OrchestratorInput n m k) (idx : ℕ) :
    Factors n k k m × WithTop ℚ × ℕ :=
  attempt_coclustering I.iter_max I.Z (attemptInit I idx)

/-- The label pair attempt `idx` produces (src/nbvd.py line 197). -/
def attemptLabels [NeZero k] (I : OrchestratorInput n m k) (idx : ℕ) :
    (Fin n → Fin k) × (Fin m → Fin k) :=
  (get_labels_bicluster (attemptRun I idx).1.R (attemptRun I idx).1.C
    (attemptRun I idx).1.B).2

/-- The mean silhouette of attempt `idx` (the value `MeanTuple(sil_row,
sil_col)` is compared by). -/
def attemptMean [NeZero k] (I : OrchestratorInput n m k) (idx : ℕ) : ℚ :=
  meanPair (I.silRowVal (attemptLabels I idx).1) (I.silColVal (attemptLabels I idx).2)

/-- Attempt `idx` represents at least 2 distinct clusters among rows and
among columns, so both silhouette calls are defined. -/
def attemptOk [NeZero k] (I : OrchestratorInput n m k) (idx : ℕ) : Prop :=
  2 ≤ (Finset.univ.image (attemptLabels I idx).1).card ∧
  2 ≤ (Finset.univ.image (attemptLabels I idx).2).card

instance [NeZero k] (I : OrchestratorInput n m k) (idx : ℕ) :
    Decidable (attemptOk I idx) :=
  inferInstanceAs (Decidable (_ ∧ _))

/-- The mutable best-so-far slot of `do_things` (src/nbvd.py line 176):
`best_norm = np.inf`, `best_results = None`, `best_iter = 0`,
`best_sil = MeanTuple(-np.inf)` (represented by its mean, `⊥`). -/
structure BestAcc (n m k : ℕ) where
  best_results : Option (Factors n k k m)
  best_norm : WithTop ℚ
  best_iter : ℕ
  best_sil : WithBot ℚ

/-- One iteration of the attempt loop (src/nbvd.py lines 178-212): run the
attempt, extract labels, score row then column silhouettes (each raising on a
degenerate labeling, with no handler anywhere in the loop), and replace the
best slot exactly when the mean silhouette strictly exceeds the retained
one. -/
def do_things_step [NeZero k] (I : OrchestratorInput n m k) (acc : BestAcc n m k)
    (idx : ℕ) : Except String (BestAcc n m k) :=
  match silhouette_score I.silRowVal (attemptLabels I idx).1 with
  | .error e => .error e
  | .ok sil_row =>
    match silhouette_score I.silColVal (attemptLabels I idx).2 with
    | .error e => .error e
    | .ok sil_col =>
      .ok (if acc.best_sil < ((meanPair sil_row sil_col : ℚ) : WithBot ℚ) then
            ⟨some (attemptRun I idx).1, (attemptRun I idx).2.1, (attemptRun I idx).2.2,
             ((meanPair sil_row sil_col : ℚ) : WithBot ℚ)⟩
          else acc)

/-- The attempt loop `while attempt_no < self.n_attempts`, over the list of
attempt indices; an uncaught exception aborts the remaining attempts. -/
def do_things_go [NeZero k] (I : OrchestratorInput n m k) :
    List ℕ → BestAcc n m k → Except String (BestAcc n m k)
  | [], acc => .ok acc
  | idx :: rest, acc =>
    match do_things_step I acc idx with
    | .error e => .error e
    | .ok acc2 => do_things_go I rest acc2

/-- `do_things` (src/nbvd.py lines 173-216) composed with the unpacking
`self.R, self.B, self.C = self.do_things(...)` of `__post_init__` (line 231):
the best attempt's factors together with the recorded `best_norm` and
`best_iter`.  With zero attempts `best_results` is still `None` and the
unpacking raises. -/
def do_things [NeZero k] (I : OrchestratorInput n m k) :
    Except String (Factors n k k m × WithTop ℚ × ℕ) :=
  match do_things_go I (List.range I.n_attempts) ⟨none, ⊤, 0, ⊥⟩ with
  | .error e => .error e
  | .ok acc =>
    match acc.best_results with
    | some res => .ok (res, acc.best_norm, acc.best_iter)
    | none => .error "TypeError: cannot unpack non-iterable NoneType object"

/-!
## Selection of the best attempt (C4)
-/

/-- The attempt index retained after attempts `0..j` have been processed:
the earliest index attaining the strict maximum of the mean silhouette
(replacement only on strict improvement). -/
def bestIdx [NeZero k] (I : OrchestratorInput n m k) : ℕ → ℕ
  | 0 => 0
  | j + 1 =>
    if attemptMean I (bestIdx I j) < attemptMean I (j + 1) then j + 1 else bestIdx I j

/-- The best-so-far slot after attempts `0..j` have been processed. -/
def accAfter [NeZero k] (I : OrchestratorInput n m k) (j : ℕ) : BestAcc n m k :=
  ⟨some (attemptRun I (bestIdx I j)).1, (attemptRun I (bestIdx I j)).2.1,
   (attemptRun I (bestIdx I j)).2.2, ((attemptMean I (bestIdx I j) : ℚ) : WithBot ℚ)⟩

theorem do_things_step_ok [NeZero k] (I : OrchestratorInput n m k)
    (acc : BestAcc n m k) (idx : ℕ) (h : attemptOk I idx) :
    do_things_step I acc idx =
      .ok (if acc.best_sil < ((attemptMean I idx : ℚ) : WithBot ℚ) then
            ⟨some (attemptRun I idx).1, (attemptRun I idx).2.1, (attemptRun I idx).2.2,
             ((attemptMean I idx : ℚ) : WithBot ℚ)⟩
          else acc) := by
  unfold do_things_step silhouette_score
  rw [if_pos h.1, if_pos h.2]
  rfl

theorem do_things_step_error [NeZero k] (I : OrchestratorInput n m k)
    (acc : BestAcc n m k) (idx : ℕ) (h : ¬ attemptOk I idx) :
    ∃ e, do_things_step I acc idx = .error e := by
  unfold do_things_step silhouette_score
  by_cases h1 : 2 ≤ (Finset.univ.image (attemptLabels I idx).1).card
  · have h2 : ¬ 2 ≤ (Finset.univ.image (attemptLabels I idx).2).card :=
      fun h2 => h ⟨h1, h2⟩
    rw [if_pos h1, if_neg h2]
    exact ⟨_, rfl⟩
  · rw [if_neg h1]
    exact ⟨_, rfl⟩

theorem do_things_go_append [NeZero k] (I : OrchestratorInput n m k)
    (a b : List ℕ) (acc : BestAcc n m k) :
    do_things_go I (a ++ b) acc =
      match do_things_go I a acc with
      | .error e => .error e
      | .ok acc2 => do_things_go I b acc2 := by
  induction a generalizing acc with
  | nil => simp [do_things_go]
  | cons x xs ih =>
    cases h : do_things_step I acc x with
    | error e => simp [do_things_go, h]
    | ok acc2 => simp [do_things_go, h, ih]

theorem do_things_go_range [NeZero k] (I : OrchestratorInput n m k) (j : ℕ)
    (hok : ∀ t, t < j + 1 → attemptOk I t) :
    do_things_go I (List.range (j + 1)) ⟨none, ⊤, 0, ⊥⟩ = .ok (accAfter I j) := by
  induction j with
  | zero =>
    show do_things_go I [0] _ = _
    rw [show do_things_go I [0] (⟨none, ⊤, 0, ⊥⟩ : BestAcc n m k)
          = match do_things_step I ⟨none, ⊤, 0, ⊥⟩ 0 with
            | .error e => .error e
            | .ok acc2 => do_things_go I [] acc2 from rfl]
    rw [do_things_step_ok I _ 0 (hok 0 (by omega))]
    rw [if_pos (WithBot.bot_lt_coe _)]
    rfl
  | succ j ih =>
    rw [List.range_succ, do_things_go_append,
      ih (fun t ht => hok t (by omega))]
    show do_things_go I [j + 1] (accAfter I j) = _
    rw [show do_things_go I [j + 1] (accAfter I j)
          = match do_things_step I (accAfter I j) (j + 1) with
            | .error e => .error e
            | .ok acc2 => do_things_go I [] acc2 from rfl]
    rw [do_things_step_ok I _ (j + 1) (hok (j + 1) (by omega))]
    show Except.ok _ = Except.ok _
    by_cases hc : attemptMean I (bestIdx I j) < attemptMean I (j + 1)
    · rw [show (accAfter I j).best_sil = ((attemptMean I (bestIdx I j) : ℚ) : WithBot ℚ)
            from rfl]
      rw [if_pos (by exact_mod_cast hc)]
      have hb : bestIdx I (j + 1) = j + 1 := by rw [bestIdx, if_pos hc]
      show _ = Except.ok (accAfter I (j + 1))
      rw [accAfter, hb]
    · rw [show (accAfter I j).best_sil = ((attemptMean I (bestIdx I j) : ℚ) : WithBot ℚ)
            from rfl]
      rw [if_neg (by exact_mod_cast hc)]
      have hb : bestIdx I (j + 1) = bestIdx I j := by rw [bestIdx, if_neg hc]
      have h2 : accAfter I (j + 1) = accAfter I j := by
        unfold accAfter
        rw [hb]
      rw [h2]

theorem bestIdx_le [NeZero k] (I : OrchestratorInput n m k) :
    ∀ j, bestIdx I j ≤ j := by
  intro j
  induction j with
  | zero => exact le_refl 0
  | succ j ih =>
    rw [bestIdx]
    by_cases hc : attemptMean I (bestIdx I j) < attemptMean I (j + 1)
    · rw [if_pos hc]
    · rw [if_neg hc]; omega

theorem attemptMean_le_bestIdx [NeZero k] (I : OrchestratorInput n m k) :
    ∀ j t, t ≤ j → attemptMean I t ≤ attemptMean I (bestIdx I j) := by
  intro j
  induction j with
  | zero =>
    intro t ht
    have h0 : t = 0 := by omega
    rw [h0]
    exact le_refl _
  | succ j ih =>
    intro t ht
    rw [bestIdx]
    by_cases hc : attemptMean I (bestIdx I j) < attemptMean I (j + 1)
    · rw [if_pos hc]
      rcases Nat.lt_or_ge t (j + 1) with h | h
      · exact le_of_lt (lt_of_le_of_lt (ih t (by omega)) hc)
      · have h1 : t = j + 1 := by omega
        rw [h1]
    · rw [if_neg hc]
      rcases Nat.lt_or_ge t (j + 1) with h | h
      · exact ih t (by omega)
      · have h1 : t = j + 1 := by omega
        rw [h1]
        exact le_of_not_lt hc

theorem attemptMean_lt_bestIdx [NeZero k] (I : OrchestratorInput n m k) :
    ∀ j t, t < bestIdx I j → attemptMean I t < attemptMean I (bestIdx I j) := by
  intro j
  induction j with
  | zero => intro t ht; exact absurd ht (by simp [bestIdx])
  | succ j ih =>
    intro t ht
    rw [bestIdx] at ht ⊢
    by_cases hc : attemptMean I (bestIdx I j) < attemptMean I (j + 1)
    · rw [if_pos hc] at ht ⊢
      have h1 : t ≤ j := by
        have := bestIdx_le I j
        omega
      exact lt_of_le_of_lt (attemptMean_le_bestIdx I j t h1) hc
    · rw [if_neg hc] at ht ⊢
      exact ih t ht

/-- C4: the Attempt Orchestrator compares attempts by the arithmetic mean of
the quality pair (row silhouette, column silhouette); an attempt replaces the
retained best exactly on a strictly greater mean, so ties keep the earlier
attempt; after all `n_attempts` trials (at least one, all with defined
metrics) the exposed factors, final norm and iteration count are those of the
retained best attempt: some attempt `i` whose mean silhouette is a maximum,
and strictly above every earlier attempt's. -/
theorem orchestrator_selects_best_mean [NeZero k] (I : OrchestratorInput n m k)
    (hN : 1 ≤ I.n_attempts) (hok : ∀ t, t < I.n_attempts → attemptOk I t) :
    ∃ i, i < I.n_attempts ∧
      do_things I = .ok ((attemptRun I i).1, (attemptRun I i).2.1, (attemptRun I i).2.2) ∧
      (∀ t, t < I.n_attempts → attemptMean I t ≤ attemptMean I i) ∧
      (∀ t, t < i → attemptMean I t < attemptMean I i) := by
  obtain ⟨j, hj⟩ : ∃ j, I.n_attempts = j + 1 := ⟨I.n_attempts - 1, by omega⟩
  refine ⟨bestIdx I j, ?_, ?_, ?_, ?_⟩
  · have := bestIdx_le I j
    omega
  · unfold do_things
    rw [hj, do_things_go_range I j (by rw [← hj]; exact hok)]
    rfl
  · intro t ht
    exact attemptMean_le_bestIdx I j t (by omega)
  · intro t ht
    exact attemptMean_lt_bestIdx I j t ht

/-- Concrete orchestrator input for the witnesses: `Z` the all-ones 2×2
matrix (so `B0 = Z.mean() * np.ones((2,2))` is all ones), identity rng draws
(so `R·B·C = Z` exactly, making the update a fixpoint with all denominators
positive), a single attempt, `iter_max = 1`, zero silhouette oracles.  The
adherence labels come out as `(0,1)` for rows and for columns, so the metric
is defined. -/
def I0 : OrchestratorInput 2 2 2 where
  Z := fun _ _ => 1
  iter_max := 1
  n_attempts := 1
  rngR := fun _ i j => if i = j then 1 else 0
  rngC := fun _ i j => if i = j then 1 else 0
  silRowVal := fun _ => 0
  silColVal := fun _ => 0

set_option maxRecDepth 40000 in
theorem orchestrator_selects_best_mean_witness :
    (1 ≤ I0.n_attempts ∧ attemptOk I0 0) ∧
    (∃ i, i < I0.n_attempts ∧
      do_things I0 = .ok ((attemptRun I0 i).1, (attemptRun I0 i).2.1, (attemptRun I0 i).2.2) ∧
      (∀ t, t < I0.n_attempts → attemptMean I0 t ≤ attemptMean I0 i) ∧
      (∀ t, t < i → attemptMean I0 t < attemptMean I0 i)) :=
  ⟨⟨by decide, by decide⟩,
   orchestrator_selects_best_mean I0 (by decide)
     (fun t ht => by
       have h0 : t = 0 := Nat.lt_one_iff.mp ht
       rw [h0]
       decide)⟩

/-!
## Best-norm bookkeeping (C10)
-/

/-- Invariant of the best-so-far slot: whenever it holds factors, the
recorded norm is the reconstruction error of those factors. -/
def NormInv [NeZero k] (I : OrchestratorInput n m k) (acc : BestAcc n m k) : Prop :=
  ∀ res, acc.best_results = some res →
    acc.best_norm = ((sqnorm (recon res - I.Z) : ℚ) : WithTop ℚ)

theorem do_things_step_norm_inv [NeZero k] (I : OrchestratorInput n m k)
    (acc acc2 : BestAcc n m k) (idx : ℕ) (hinv : NormInv I acc)
    (h : do_things_step I acc idx = .ok acc2) : NormInv I acc2 := by
  unfold do_things_step at h
  cases h1 : silhouette_score I.silRowVal (attemptLabels I idx).1 with
  | error e =>
    rw [h1] at h
    exact absurd h (by simp)
  | ok sil_row =>
    rw [h1] at h
    cases h2 : silhouette_score I.silColVal (attemptLabels I idx).2 with
    | error e =>
      rw [h2] at h
      exact absurd h (by simp)
    | ok sil_col =>
      rw [h2] at h
      simp only [Except.ok.injEq] at h
      by_cases hc : acc.best_sil < ((meanPair sil_row sil_col : ℚ) : WithBot ℚ)
      · rw [if_pos hc] at h
        rw [← h]
        intro res hres
        have hr : (attemptRun I idx).1 = res := Option.some.inj hres
        show (attemptRun I idx).2.1 = _
        rw [← hr]
        exact attempt_coclustering_norm_eq I.iter_max I.Z (attemptInit I idx)
      · rw [if_neg hc] at h
        rw [← h]
        exact hinv

theorem do_things_go_norm_inv [NeZero k] (I : OrchestratorInput n m k) :
    ∀ (lst : List ℕ) (acc acc2 : BestAcc n m k), NormInv I acc →
      do_things_go I lst acc = .ok acc2 → NormInv I acc2 := by
  intro lst
  induction lst with
  | nil =>
    intro acc acc2 hinv h
    exact (Except.ok.inj h) ▸ hinv
  | cons x xs ih =>
    intro acc acc2 hinv h
    have h2 : (match do_things_step I acc x with
        | .error e => (.error e : Except String (BestAcc n m k))
        | .ok acc3 => do_things_go I xs acc3) = .ok acc2 := h
    cases hs : do_things_step I acc x with
    | error e =>
      rw [hs] at h2
      exact absurd h2 (by simp)
    | ok acc3 =>
      rw [hs] at h2
      exact ih acc3 acc2 (do_things_step_norm_inv I acc acc3 x hinv hs) h2

/-- C10: whenever construction completes, the exposed `best_norm` is the
(squared-representative) Frobenius norm of `Z − R·B·C` evaluated at the
exposed winning factors: the norm recorded for the retained attempt is the
norm of the factors that attempt returned, which are the factors the model
exposes. -/
theorem best_norm_matches_exposed_factors [NeZero k] (I : OrchestratorInput n m k)
    (res : Factors n k k m) (nrmv : WithTop ℚ) (it : ℕ)
    (h : do_things I = .ok (res, nrmv, it)) :
    nrmv = ((sqnorm (recon res - I.Z) : ℚ) : WithTop ℚ) := by
  unfold do_things at h
  cases hgo : do_things_go I (List.range I.n_attempts) ⟨none, ⊤, 0, ⊥⟩ with
  | error e =>
    rw [hgo] at h
    exact absurd h (by simp)
  | ok acc =>
    rw [hgo] at h
    have hinv : NormInv I acc :=
      do_things_go_norm_inv I (List.range I.n_attempts) _ acc
        (fun r hr => absurd hr (by simp)) hgo
    have h2 : (match acc.best_results with
        | some r => (.ok (r, acc.best_norm, acc.best_iter) :
            Except String (Factors n k k m × WithTop ℚ × ℕ))
        | none => .error "TypeError: cannot unpack non-iterable NoneType object")
          = .ok (res, nrmv, it) := h
    cases hbr : acc.best_results with
    | none =>
      rw [hbr] at h2
      exact absurd h2 (by simp)
    | some r =>
      rw [hbr] at h2
      simp only [Except.ok.injEq, Prod.mk.injEq] at h2
      obtain ⟨hres, hnrm, _⟩ := h2
      rw [← hnrm, hinv r hbr, hres]

set_option maxRecDepth 40000 in
theorem best_norm_matches_exposed_factors_witness :
    do_things I0 = .ok ((attemptRun I0 0).1, (attemptRun I0 0).2.1, (attemptRun I0 0).2.2) ∧
    (attemptRun I0 0).2.1
      = ((sqnorm (recon (attemptRun I0 0).1 - I0.Z) : ℚ) : WithTop ℚ) :=
  ⟨by decide,
   best_norm_matches_exposed_factors I0 (attemptRun I0 0).1 (attemptRun I0 0).2.1
     (attemptRun I0 0).2.2 (by decide)⟩

/-!
## Degenerate labelings are not handled (C8)
-/

theorem range_split (j d : ℕ) :
    ∃ tail, List.range (j + (d + 1)) = List.range j ++ j :: tail := by
  induction d with
  | zero =>
    refine ⟨[], ?_⟩
    have h1 := List.range_succ j
    simpa using h1
  | succ d ih =>
    obtain ⟨tail, htail⟩ := ih
    refine ⟨tail ++ [j + (d + 1)], ?_⟩
    rw [show j + (d + 1 + 1) = j + (d + 1) + 1 from by omega, List.range_succ, htail]
    simp

/-- C8 (amended): the Attempt Orchestrator performs no detection or handling
of degenerate label assignments.  If every attempt before `j` has a defined
metric and attempt `j < n_attempts` has fewer than 2 distinct clusters among
its row labels or among its column labels, the silhouette call raises and the
error propagates out of `do_things`: the run aborts instead of skipping or
penalizing the attempt. -/
theorem metric_error_propagates [NeZero k] (I : OrchestratorInput n m k) (j : ℕ)
    (hj : j < I.n_attempts) (hpre : ∀ t, t < j → attemptOk I t)
    (hbad : ¬ attemptOk I j) :
    ∃ e, do_things I = .error e := by
  obtain ⟨d, hd⟩ : ∃ d, I.n_attempts = j + (d + 1) := ⟨I.n_attempts - j - 1, by omega⟩
  obtain ⟨tail, htail⟩ := range_split j d
  have hok0 : ∃ acc, do_things_go I (List.range j) ⟨none, ⊤, 0, ⊥⟩ = .ok acc := by
    cases j with
    | zero => exact ⟨_, rfl⟩
    | succ j2 => exact ⟨accAfter I j2, do_things_go_range I j2 hpre⟩
  obtain ⟨acc, hacc⟩ := hok0
  obtain ⟨e, he⟩ := do_things_step_error I acc j hbad
  have hgo : do_things_go I (j :: tail) acc = .error e := by
    have h2 : (match do_things_step I acc j with
        | .error e2 => (.error e2 : Except String (BestAcc n m k))
        | .ok acc3 => do_things_go I tail acc3) = do_things_go I (j :: tail) acc := rfl
    rw [← h2, he]
  have hgo2 : do_things_go I (List.range I.n_attempts) ⟨none, ⊤, 0, ⊥⟩ = .error e := by
    rw [hd, htail, do_things_go_append, hacc]
    exact hgo
  refine ⟨e, ?_⟩
  unfold do_things
  rw [hgo2]

/-- Concrete orchestrator input whose single attempt yields constant labels:
`Z` all ones and all rng draws `1/2`, so every row of the adherence matrices
is identical and both label vectors are constant. -/
def I8 : OrchestratorInput 2 2 2 where
  Z := fun _ _ => 1
  iter_max := 1
  n_attempts := 1
  rngR := fun _ _ _ => 1 / 2
  rngC := fun _ _ _ => 1 / 2
  silRowVal := fun _ => 0
  silColVal := fun _ => 0

set_option maxRecDepth 40000 in
/-- C8 counterexample: on `I8` the single attempt's row labeling has one
distinct cluster; `do_things` neither skips nor penalizes the attempt — the
metric-computation error escapes the whole run. -/
theorem silhouette_error_not_handled :
    do_things I8
      = .error "ValueError: Number of labels is 1. Valid values are 2 to n_samples - 1 (inclusive)" := by
  decide

set_option maxRecDepth 40000 in
theorem metric_error_propagates_witness :
    (0 < I8.n_attempts ∧ ¬ attemptOk I8 0) ∧ ∃ e, do_things I8 = .error e :=
  ⟨⟨by decide, by decide⟩,
   metric_error_propagates I8 0 (by decide) (fun t ht => absurd ht (by omega)) (by decide)⟩

/-!
## Full construction (`__post_init__`, src/nbvd.py lines 219-244) and
determinism (C9)
-/

/-- `get_cluster_assoc` (src/nbvd.py lines 135-139): entry `(i, j)` is true
iff `B[i, j]` is at least the average of row `i` of `B`
(`np.average(B, axis=1)`). -/
def get_cluster_assoc (B : Matrix (Fin k) (Fin l) ℚ) : Matrix (Fin k) (Fin l) Bool :=
  fun i j => decide ((∑ j2, B i j2) / (l : ℚ) ≤ B i j)

/-- Modelled from the spec: `get_centroids_by_cluster` lives in the missing
`my_utils` module.  §4.7 of the spec: "for each cluster index, the arithmetic
mean of the rows (or columns) assigned to it"; the data model gives row
centroids shape `m×k`, column `c` holding the mean of the `Z`-rows labelled
`c`.  An empty cluster has denominator `0`, giving `0` entries in `ℚ` (numpy
would produce `nan`). -/
def get_centroids_by_cluster {a b c : ℕ} (Z : Matrix (Fin a) (Fin b) ℚ)
    (labels : Fin a → Fin c) : Matrix (Fin b) (Fin c) ℚ :=
  fun f cl => (∑ i ∈ Finset.univ.filter (fun i => labels i = cl), Z i f)
      / ((Finset.univ.filter (fun i => labels i = cl)).card : ℚ)

/-- `get_centroids` (src/nbvd.py lines 63-68). -/
def get_centroids (Z : Matrix (Fin n) (Fin m) ℚ) (row_labels : Fin n → Fin k)
    (col_labels : Fin m → Fin k) :
    Matrix (Fin m) (Fin k) ℚ × Matrix (Fin n) (Fin k) ℚ :=
  (get_centroids_by_cluster Z row_labels, get_centroids_by_cluster Zᵀ col_labels)

/-- The constructed model: the winning factors plus every derived artifact
`__post_init__` exposes (basis vectors, bicluster masks, labels, cluster
association, centroids, best norm and iteration count). -/
structure Model (n m k : ℕ) where
  R : Matrix (Fin n) (Fin k) ℚ
  B : Matrix (Fin k) (Fin k) ℚ
  C : Matrix (Fin k) (Fin m) ℚ
  best_norm : WithTop ℚ
  best_iter : ℕ
  basis_vectors : Matrix (Fin m) (Fin k) ℚ × Matrix (Fin n) (Fin k) ℚ
  biclusters : Matrix (Fin k) (Fin n) Bool × Matrix (Fin k) (Fin m) Bool
  row_labels : Fin n → Fin k
  column_labels : Fin m → Fin k
  cluster_assoc : Matrix (Fin k) (Fin k) Bool
  centroids : Matrix (Fin m) (Fin k) ℚ × Matrix (Fin n) (Fin k) ℚ

/-- The full asymmetric construction `__post_init__` (src/nbvd.py lines
219-244) at the default `"fancy"` labeling method: run the orchestrator,
then derive basis vectors, bicluster masks, labels, cluster association and
centroids from the winning factors.  With `symmetric=False` the squareness
check does not fire; the only exception paths are the ones `do_things`
propagates. -/
def NBVD_construct [NeZero k] (I : OrchestratorInput n m k) :
    Except String (Model n m k) :=
  match do_things I with
  | .error e => .error e
  | .ok (res, bnorm, biter) =>
    let gb := get_labels_bicluster res.R res.C res.B
    .ok ⟨res.R, res.B, res.C, bnorm, biter,
      get_basis_vectors res.R res.B res.C,
      gb.1, gb.2.1, gb.2.2,
      get_cluster_assoc res.B,
      get_centroids I.Z gb.2.1 gb.2.2⟩

/-- The inputs of a symmetric-mode run: the data matrix is square by the
(type-level) squareness requirement that `__post_init__` enforces with its
explicit check, `C` is the transposed view of `R` (so there is no separate
`rngC` stream), and the fancy labeling forces `l = k`. -/
structure OrchestratorInputSym (n k : ℕ) where
  Z : Matrix (Fin n) (Fin n) ℚ
  iter_max : ℕ
  n_attempts : ℕ
  rngR : ℕ → Matrix (Fin n) (Fin k) ℚ
  silRowVal : (Fin n → Fin k) → ℚ
  silColVal : (Fin n → Fin k) → ℚ

/-- The optimizer run of symmetric attempt `idx`: the convergence loop over
the aliased state `(S, B)` (`C` is the transposed view of `S`, so the
reconstruction is `S·B·Sᵀ`), driven by the symmetric update. -/
def attemptRunSym (I : OrchestratorInputSym n k) (idx : ℕ) :
    (Matrix (Fin n) (Fin k) ℚ × Matrix (Fin k) (Fin k) ℚ) × WithTop ℚ × ℕ :=
  coclusterLoop I.iter_max (fun p => attempt_coclustering_aux_sym I.Z p.1 p.2)
    (fun p => sqnorm (p.1 * p.2 * p.1ᵀ - I.Z)) (I.iter_max + 1) 0 ⊤ ⊤
    (I.rngR idx, fun _ _ => npMean I.Z)

/-- The label pair of symmetric attempt `idx` (`get_labels_bicluster` on
`R = S`, `C = Sᵀ`, `B`). -/
def attemptLabelsSym [NeZero k] (I : OrchestratorInputSym n k) (idx : ℕ) :
    (Fin n → Fin k) × (Fin n → Fin k) :=
  (get_labels_bicluster (attemptRunSym I idx).1.1 ((attemptRunSym I idx).1.1)ᵀ
    (attemptRunSym I idx).1.2).2

/-- One iteration of the attempt loop in symmetric mode (same structure as
`do_things_step`, the retained factor triple being `(S, B, Sᵀ)`). -/
def do_things_step_sym [NeZero k] (I : OrchestratorInputSym n k)
    (acc : BestAcc n n k) (idx : ℕ) : Except String (BestAcc n n k) :=
  match silhouette_score I.silRowVal (attemptLabelsSym I idx).1 with
  | .error e => .error e
  | .ok sil_row =>
    match silhouette_score I.silColVal (attemptLabelsSym I idx).2 with
    | .error e => .error e
    | .ok sil_col =>
      .ok (if acc.best_sil < ((meanPair sil_row sil_col : ℚ) : WithBot ℚ) then
            ⟨some ⟨(attemptRunSym I idx).1.1, (attemptRunSym I idx).1.2,
                   ((attemptRunSym I idx).1.1)ᵀ⟩,
             (attemptRunSym I idx).2.1, (attemptRunSym I idx).2.2,
             ((meanPair sil_row sil_col : ℚ) : WithBot ℚ)⟩
          else acc)

/-- The symmetric attempt loop. -/
def do_things_go_sym [NeZero k] (I : OrchestratorInputSym n k) :
    List ℕ → BestAcc n n k → Except String (BestAcc n n k)
  | [], acc => .ok acc
  | idx :: rest, acc =>
    match do_things_step_sym I acc idx with
    | .error e => .error e
    | .ok acc2 => do_things_go_sym I rest acc2

/-- `do_things` in symmetric mode, composed with the `__post_init__`
unpacking. -/
def do_things_sym [NeZero k] (I : OrchestratorInputSym n k) :
    Except String (Factors n k k n × WithTop ℚ × ℕ) :=
  match do_things_go_sym I (List.range I.n_attempts) ⟨none, ⊤, 0, ⊥⟩ with
  | .error e => .error e
  | .ok acc =>
    match acc.best_results with
    | some res => .ok (res, acc.best_norm, acc.best_iter)
    | none => .error "TypeError: cannot unpack non-iterable NoneType object"

/-- The full symmetric construction (`__post_init__` with `symmetric=True`
on a square matrix; the winning `C` is the transposed view of the winning
`S = R`, and `self.S` aliases `self.R`). -/
def NBVD_construct_sym [NeZero k] (I : OrchestratorInputSym n k) :
    Except String (Model n n k) :=
  match do_things_sym I with
  | .error e => .error e
  | .ok (res, bnorm, biter) =>
    let gb := get_labels_bicluster res.R res.C res.B
    .ok ⟨res.R, res.B, res.C, bnorm, biter,
      get_basis_vectors res.R res.B res.C,
      gb.1, gb.2.1, gb.2.2,
      get_cluster_assoc res.B,
      get_centroids I.Z gb.2.1 gb.2.2⟩

/-- C9: determinism as a two-run property.  All inputs of a run — `Z`, the
cluster counts, the symmetric flag (choosing between the two constructors),
`n_attempts`, `iter_max`, and the seed-determined rng stream (together with
the silhouette oracles of the deterministic external metric) — are the
`OrchestratorInput`/`OrchestratorInputSym` value; two independent runs of the
constructor on the same inputs produce identical models: the same `R`, `B`,
`C`, row and column labels, centroids, and every other exposed artifact. -/
theorem construction_deterministic [NeZero k] :
    (∀ (I : OrchestratorInput n m k) (r1 r2 : Except String (Model n m k)),
        r1 = NBVD_construct I → r2 = NBVD_construct I → r1 = r2) ∧
    (∀ (J : OrchestratorInputSym n k) (s1 s2 : Except String (Model n n k)),
        s1 = NBVD_construct_sym J → s2 = NBVD_construct_sym J → s1 = s2) :=
  ⟨fun _ _ _ h1 h2 => h1.trans h2.symm, fun _ _ _ h1 h2 => h1.trans h2.symm⟩

/-- Concrete symmetric-mode input for the determinism witness. -/
def IS : OrchestratorInputSym 2 2 where
  Z := fun _ _ => 1
  iter_max := 1
  n_attempts := 1
  rngR := fun _ i j => if i = j then 1 else 0
  silRowVal := fun _ => 0
  silColVal := fun _ => 0

theorem construction_deterministic_witness :
    NBVD_construct I0 = NBVD_construct I0 ∧
    NBVD_construct_sym IS = NBVD_construct_sym IS :=
  ⟨(construction_deterministic (n := 2) (m := 2) (k := 2)).1 I0
     (NBVD_construct I0) (NBVD_construct I0) rfl rfl,
   (construction_deterministic (n := 2) (m := 2) (k := 2)).2 IS
     (NBVD_construct_sym IS) (NBVD_construct_sym IS) rfl rfl⟩

end NBVD
